import Mathlib

/-!
Verification of the node-table module (`util/network-devp2p/src/node_table.rs`)
of the `parity` repository, as a shallow embedding in Lean 4.

Modelling conventions:
* Machine integers (`u8`, `u16`, `u32`) are `Nat` with explicit `% 2 ^ w`
  at the operations where overflow can occur in a release build.
* The generic RLP codec is external to the module; the endpoint triplet
  `[ip_bytes, udp_port, tcp_port]` is therefore modelled as a record whose
  port fields are the already-decoded unsigned 16-bit values and whose
  `ip_bytes` field is the raw byte list of item 0, exactly the data the
  module reads via `rlp.at(0)?.data()?` and writes via `rlp.append`.
* The `unsafe` pointer reinterpretations in `from_rlp` / `to_rlp`
  (`mem::transmute` of a byte pointer to a `u16` pointer and back) read and
  write 16-bit groups in the byte order of the target machine.  The model
  takes the target endianness as an explicit `le : Bool` parameter
  (`le = true` on the little-endian x86/ARM deployment targets).
* `HashMap` / `HashSet` are modelled as lists keyed by node id; iteration
  order of a `HashMap` is arbitrary in Rust, so no theorem below depends on
  the particular order of the underlying list except through sorting keys
  that determine the order uniquely.
-/

namespace Parity

/-- Node public key (`pub type NodeId = H512`), a 512-bit identifier,
modelled as a natural number (`< 2 ^ 512` whenever it comes from `H512`). -/
abbrev NodeId := Nat

/-- `std::net::SocketAddr`: an IPv4 socket address (four octets and a port)
or an IPv6 socket address (eight 16-bit groups, a port, flow info and
scope id). -/
inductive SocketAddr where
  | v4 (b0 b1 b2 b3 : Nat) (port : Nat)
  | v6 (s0 s1 s2 s3 s4 s5 s6 s7 : Nat) (port : Nat) (flowinfo : Nat) (scope_id : Nat)
  deriving DecidableEq, Repr

/-- `SocketAddr::port`. -/
def SocketAddr.port : SocketAddr → Nat
  | .v4 _ _ _ _ p => p
  | .v6 _ _ _ _ _ _ _ _ p _ _ => p

/-- `struct NodeEndpoint { address: SocketAddr, udp_port: u16 }`. -/
structure NodeEndpoint where
  address : SocketAddr
  udp_port : Nat
  deriving DecidableEq, Repr

/-- The field ranges guaranteed by the Rust types: octets are `u8`,
groups and ports are `u16`. -/
def NodeEndpoint.wellFormed (e : NodeEndpoint) : Bool :=
  decide (e.udp_port < 65536) &&
  match e.address with
  | .v4 b0 b1 b2 b3 p =>
      decide (b0 < 256 ∧ b1 < 256 ∧ b2 < 256 ∧ b3 < 256 ∧ p < 65536)
  | .v6 s0 s1 s2 s3 s4 s5 s6 s7 p _ _ =>
      decide (s0 < 65536 ∧ s1 < 65536 ∧ s2 < 65536 ∧ s3 < 65536 ∧
        s4 < 65536 ∧ s5 < 65536 ∧ s6 < 65536 ∧ s7 < 65536 ∧ p < 65536)

/-- The endpoint wire triplet `[ip_bytes, udp_port, tcp_port]` exchanged
with the external RLP codec: item 0 as raw bytes, items 1 and 2 as decoded
unsigned 16-bit values. -/
structure WireTriplet where
  ip_bytes : List Nat
  udp_port : Nat
  tcp_port : Nat
  deriving DecidableEq, Repr

/-- The decoder-error variant the module produces
(`rlp::DecoderError::RlpInconsistentLengthAndData`). -/
inductive DecoderError where
  | RlpInconsistentLengthAndData
  deriving DecidableEq, Repr

/-- Reading a `u16` from two consecutive bytes through the transmuted
pointer in `from_rlp`: the pair is interpreted in target byte order
(`le = true`: low byte first). -/
def u16OfBytes (le : Bool) (b0 b1 : Nat) : Nat :=
  if le then b1 * 256 + b0 else b0 * 256 + b1

/-- The two bytes a `u16` group occupies in memory, as emitted by the
transmuted pointer in `to_rlp` (`le = true`: low byte first). -/
def u16Bytes (le : Bool) (g : Nat) : List Nat :=
  if le then [g % 256, g / 256 % 256] else [g / 256 % 256, g % 256]

/-- `NodeEndpoint::from_rlp`: item 0 of the triplet must be exactly 4 bytes
(an IPv4 address) or exactly 16 bytes (eight 16-bit groups read through a
transmuted `*const u16`, hence in target byte order `le`); any other
length is `RlpInconsistentLengthAndData`.  The TCP port (item 2) becomes
the socket-address port; item 1 is the UDP port; a decoded IPv6 address
has `flowinfo = 0` and `scope_id = 0`. -/
def NodeEndpoint.from_rlp (le : Bool) (t : WireTriplet) :
    Except DecoderError NodeEndpoint :=
  match t.ip_bytes with
  | [b0, b1, b2, b3] =>
      .ok ⟨.v4 b0 b1 b2 b3 t.tcp_port, t.udp_port⟩
  | [b0, b1, b2, b3, b4, b5, b6, b7, b8, b9, b10, b11, b12, b13, b14, b15] =>
      .ok ⟨.v6 (u16OfBytes le b0 b1) (u16OfBytes le b2 b3)
              (u16OfBytes le b4 b5) (u16OfBytes le b6 b7)
              (u16OfBytes le b8 b9) (u16OfBytes le b10 b11)
              (u16OfBytes le b12 b13) (u16OfBytes le b14 b15)
              t.tcp_port 0 0, t.udp_port⟩
  | _ => .error .RlpInconsistentLengthAndData

/-- `NodeEndpoint::to_rlp`: an IPv4 address emits its 4 octets; an IPv6
address emits the 16 bytes of its `segments()` array through a transmuted
`*const u8`, i.e. each group in target byte order `le`; then the UDP port
and the address (TCP) port. -/
def NodeEndpoint.to_rlp (le : Bool) (e : NodeEndpoint) : WireTriplet :=
  { ip_bytes :=
      match e.address with
      | .v4 b0 b1 b2 b3 _ => [b0, b1, b2, b3]
      | .v6 s0 s1 s2 s3 s4 s5 s6 s7 _ _ _ =>
          u16Bytes le s0 ++ u16Bytes le s1 ++ u16Bytes le s2 ++ u16Bytes le s3 ++
          u16Bytes le s4 ++ u16Bytes le s5 ++ u16Bytes le s6 ++ u16Bytes le s7
    udp_port := e.udp_port
    tcp_port := e.address.port }

/-- `NodeEndpoint::to_rlp_list`: opens a 3-item list (framing done by the
external codec) and appends the same triplet as `to_rlp`. -/
def NodeEndpoint.to_rlp_list (le : Bool) (e : NodeEndpoint) : WireTriplet :=
  e.to_rlp le

/-- The part of an endpoint the wire format carries: for IPv6, `flowinfo`
and `scope_id` are not encoded and decode as 0. -/
def NodeEndpoint.wireCanonical (e : NodeEndpoint) : NodeEndpoint :=
  match e.address with
  | .v4 b0 b1 b2 b3 p => ⟨.v4 b0 b1 b2 b3 p, e.udp_port⟩
  | .v6 s0 s1 s2 s3 s4 s5 s6 s7 p _ _ => ⟨.v6 s0 s1 s2 s3 s4 s5 s6 s7 p 0 0, e.udp_port⟩

/-- `enum PeerType { _Required, Optional }`. -/
inductive PeerType where
  | Required
  | Optional
  deriving DecidableEq, Repr

/-- `struct Node { id, endpoint, peer_type, attempts: u32, failures: u32 }`. -/
structure Node where
  id : NodeId
  endpoint : NodeEndpoint
  peer_type : PeerType
  attempts : Nat
  failures : Nat
  deriving DecidableEq, Repr

/-- `const DEFAULT_FAILURE_PERCENTAGE: usize = 50`. -/
def DEFAULT_FAILURE_PERCENTAGE : Nat := 50

/-- `Node::new`: fresh record with zero counters and `Optional` peer type. -/
def Node.new (id : NodeId) (endpoint : NodeEndpoint) : Node :=
  { id := id, endpoint := endpoint, peer_type := .Optional, attempts := 0, failures := 0 }

/-- `Node::failure_percentage`: 50 when `attempts == 0`, otherwise
`failures * 100 / attempts / 5 * 5` in `u32` arithmetic — the product
`failures * 100` wraps modulo `2 ^ 32` (release-build semantics); the
subsequent divisions and the final `* 5` cannot overflow. -/
def Node.failure_percentage (n : Node) : Nat :=
  if n.attempts = 0 then
    DEFAULT_FAILURE_PERCENTAGE
  else
    n.failures * 100 % 2 ^ 32 / n.attempts / 5 * 5

/-- The comparator passed to `sort_by` in `NodeTable::ordered_entries`:
failure percentage ascending, then absolute failures ascending, then
attempts descending (`b.attempts.cmp(&a.attempts)`). -/
def Node.rankCompare (a b : Node) : Ordering :=
  (compare a.failure_percentage b.failure_percentage).then
    ((compare a.failures b.failures).then (compare b.attempts a.attempts))

/-- The `is less-or-equivalent` boolean form of `Node.rankCompare`, used to
drive the stable sort. -/
def Node.rankLE (a b : Node) : Bool :=
  Node.rankCompare a b != Ordering.gt

/-- Stable insertion of an element into an already ranked list: the new
element goes after every element less-or-equivalent to it. -/
def insertRanked (le : Node → Node → Bool) (x : Node) : List Node → List Node
  | [] => [x]
  | y :: ys => if le x y then x :: y :: ys else y :: insertRanked le x ys

/-- Stable sort of a node list by `le`; models `slice::sort_by`, which is a
stable sort, so any stable sorting algorithm yields the same list. -/
def sortRanked (le : Node → Node → Bool) : List Node → List Node
  | [] => []
  | x :: xs => insertRanked le x (sortRanked le xs)

/-- `discovery::NodeEntry { id, endpoint }`. -/
structure NodeEntry where
  id : NodeId
  endpoint : NodeEndpoint
  deriving DecidableEq, Repr

/-- `discovery::TableUpdates { added, removed }`: the added map is modelled
as the list of its entries (a `HashMap` drains in arbitrary order; the
theorems below use updates with at most one entry per id). -/
structure TableUpdates where
  added : List NodeEntry
  removed : List NodeId
  deriving Repr

/-- `network::AllowIP`. -/
inductive AllowIP where
  | All
  | Private
  | Public
  | NoneAllowed
  deriving DecidableEq, Repr

/-- `network::IpFilter`: the custom allow/block CIDR networks are external
(`ipnetwork::IpNetwork` with `ip_utils::is_within`), modelled by their
membership predicates on socket addresses. -/
structure IpFilter where
  predefined : AllowIP
  custom_allow : List (SocketAddr → Bool)
  custom_block : List (SocketAddr → Bool)

/-- `IpFilter::default()`: allow all, no custom networks. -/
def IpFilter.default : IpFilter :=
  { predefined := .All, custom_allow := [], custom_block := [] }

/-- `NodeEndpoint::is_allowed_by_predefined`; the `ip_utils` predicates
`is_usable_private` / `is_usable_public` are external and passed in. -/
def NodeEndpoint.is_allowed_by_predefined
    (usablePrivate usablePublic : SocketAddr → Bool)
    (e : NodeEndpoint) (f : AllowIP) : Bool :=
  match f with
  | .All => true
  | .Private => usablePrivate e.address
  | .Public => usablePublic e.address
  | .NoneAllowed => false

/-- `NodeEndpoint::is_allowed`: (predefined allows, or some custom-allow
network contains the address) and no custom-block network contains it. -/
def NodeEndpoint.is_allowed
    (usablePrivate usablePublic : SocketAddr → Bool)
    (e : NodeEndpoint) (f : IpFilter) : Bool :=
  (e.is_allowed_by_predefined usablePrivate usablePublic f.predefined ||
    f.custom_allow.any (fun p => p e.address)) &&
  !(f.custom_block.any (fun p => p e.address))

/-- `const MAX_NODES: usize = 1024`. -/
def MAX_NODES : Nat := 1024

/-- `struct NodeTable { nodes: HashMap<NodeId, Node>, useless_nodes:
HashSet<NodeId>, path: Option<String> }`; the map is modelled as a list of
records holding at most one record per id, the set as a duplicate-free id
list. -/
structure NodeTable where
  nodes : List Node
  useless_nodes : List NodeId
  path : Option String

/-- `HashMap::get` on the record map. -/
def NodeTable.lookup (t : NodeTable) (id : NodeId) : Option Node :=
  t.nodes.find? (fun n => n.id == id)

/-- `HashMap::insert`: replace the record with the same key if present,
otherwise add the record. -/
def mapInsert (ns : List Node) (n : Node) : List Node :=
  if ns.any (fun m => m.id == n.id) then
    ns.map (fun m => if m.id == n.id then n else m)
  else
    ns ++ [n]

/-- `NodeTable::add_node`: carry the existing `attempts` / `failures` of
the id (or zero) into the inserted record, then insert. -/
def NodeTable.add_node (t : NodeTable) (node : Node) : NodeTable :=
  let af := match t.lookup node.id with
    | some n => (n.attempts, n.failures)
    | none => (0, 0)
  { t with nodes := mapInsert t.nodes { node with attempts := af.1, failures := af.2 } }

/-- `NodeTable::ordered_entries`: the records not in the useless set,
sorted by the ranking comparator. -/
def NodeTable.ordered_entries (t : NodeTable) : List Node :=
  sortRanked Node.rankLE
    (t.nodes.filter (fun n => !(t.useless_nodes.contains n.id)))

/-- `NodeTable::nodes`: ids of the ordered entries whose endpoint passes
the IP filter. -/
def NodeTable.rankedNodes
    (usablePrivate usablePublic : SocketAddr → Bool)
    (t : NodeTable) (filter : IpFilter) : List NodeId :=
  ((t.ordered_entries).filter
      (fun n => n.endpoint.is_allowed usablePrivate usablePublic filter)).map
    (fun n => n.id)

/-- `NodeTable::entries`: the ordered entries as `NodeEntry` values. -/
def NodeTable.entries (t : NodeTable) : List NodeEntry :=
  (t.ordered_entries).map (fun n => { endpoint := n.endpoint, id := n.id })

/-- `NodeTable::contains`. -/
def NodeTable.containsId (t : NodeTable) (id : NodeId) : Bool :=
  t.nodes.any (fun n => n.id == id)

/-- The upsert performed for one added entry in `NodeTable::update`:
`entry(id).or_insert_with(Node::new(id, endpoint)); entry.endpoint = endpoint`
— a fresh zero-counter record when the id is absent, and in every case the
endpoint of the stored record becomes the added endpoint. -/
def upsertEntry (ns : List Node) (e : NodeEntry) : List Node :=
  if ns.any (fun m => m.id == e.id) then
    ns.map (fun m => if m.id == e.id then { m with endpoint := e.endpoint } else m)
  else
    ns ++ [{ Node.new e.id e.endpoint with endpoint := e.endpoint }]

/-- `NodeTable::update`: apply every added entry as an upsert, then remove
every removed id that is not reserved. -/
def NodeTable.update (t : NodeTable) (u : TableUpdates) (reserved : List NodeId) :
    NodeTable :=
  let ns := u.added.foldl upsertEntry t.nodes
  let ns := u.removed.foldl
    (fun ns r => if reserved.contains r then ns else ns.filter (fun n => !(n.id == r)))
    ns
  { t with nodes := ns }

/-- `NodeTable::note_failure`: increment `failures` of the id if present;
no-op otherwise. -/
def NodeTable.note_failure (t : NodeTable) (id : NodeId) : NodeTable :=
  { t with nodes :=
      t.nodes.map (fun n => if n.id == id then { n with failures := n.failures + 1 } else n) }

/-- `NodeTable::mark_as_useless`: `HashSet::insert` of the id. -/
def NodeTable.mark_as_useless (t : NodeTable) (id : NodeId) : NodeTable :=
  { t with useless_nodes :=
      if t.useless_nodes.contains id then t.useless_nodes else id :: t.useless_nodes }

/-- `NodeTable::clear_useless`: empty the useless set. -/
def NodeTable.clear_useless (t : NodeTable) : NodeTable :=
  { t with useless_nodes := [] }

/-! ### Strings as UTF-8 byte sequences

`Node::from_str` indexes its input `&str` by *byte* positions
(`&s[0..8]`, `&s[136..137]`, …).  A Rust string slice whose boundary does
not fall on a UTF-8 character boundary panics.  Strings are modelled as
lists of Unicode scalar values; byte positions are recovered from the
UTF-8 size of each character, and a slicing operation returns `none`
exactly when Rust would panic. -/

/-- Number of bytes of the UTF-8 encoding of a scalar value. -/
def charBytes (c : Char) : Nat :=
  if c.toNat < 128 then 1
  else if c.toNat < 2048 then 2
  else if c.toNat < 65536 then 3
  else 4

/-- `str::len`: the length in bytes of the UTF-8 encoding. -/
def utf8Len (cs : List Char) : Nat :=
  (cs.map charBytes).sum

/-- Drop the first `n` bytes; `none` when `n` is not a character boundary
or exceeds the string. -/
def dropBytes : List Char → Nat → Option (List Char)
  | cs, 0 => some cs
  | [], _ + 1 => none
  | c :: cs, n + 1 =>
      if charBytes c ≤ n + 1 then dropBytes cs (n + 1 - charBytes c) else none

/-- Take the first `n` bytes; `none` when `n` is not a character boundary
or exceeds the string. -/
def takeBytes : List Char → Nat → Option (List Char)
  | _, 0 => some []
  | [], _ + 1 => none
  | c :: cs, n + 1 =>
      if charBytes c ≤ n + 1 then (takeBytes cs (n + 1 - charBytes c)).map (c :: ·) else none

/-- `&s[i..j]`: `none` models the panic on an out-of-range or
non-character-boundary byte slice. -/
def byteSlice (cs : List Char) (i j : Nat) : Option (List Char) :=
  if i ≤ j then (dropBytes cs i).bind (fun t => takeBytes t (j - i)) else none

/-! ### Hexadecimal and decimal codecs (id and port rendering) -/

/-- Lower-case hexadecimal digit character. -/
def hexDigitChar : Nat → Char
  | 0 => '0' | 1 => '1' | 2 => '2' | 3 => '3' | 4 => '4'
  | 5 => '5' | 6 => '6' | 7 => '7' | 8 => '8' | 9 => '9'
  | 10 => 'a' | 11 => 'b' | 12 => 'c' | 13 => 'd' | 14 => 'e'
  | _ => 'f'

/-- Value of a hexadecimal digit character (upper or lower case). -/
def hexVal (c : Char) : Option Nat :=
  if 48 ≤ c.toNat ∧ c.toNat ≤ 57 then some (c.toNat - 48)
  else if 97 ≤ c.toNat ∧ c.toNat ≤ 102 then some (c.toNat - 87)
  else if 65 ≤ c.toNat ∧ c.toNat ≤ 70 then some (c.toNat - 55)
  else none

/-- The exactly-`w`-digit big-endian hexadecimal rendering of `n`
(most significant digit first), prepended to `acc`; `H512`'s `{:x}`
formatting is `natToHexW 128`. -/
def natToHexW : Nat → Nat → List Char → List Char
  | 0, _, acc => acc
  | w + 1, n, acc => natToHexW w (n / 16) (hexDigitChar (n % 16) :: acc)

/-- The 128-hex-character rendering of a 512-bit id. -/
def hex128 (id : NodeId) : List Char :=
  natToHexW 128 id []

/-- Accumulate hexadecimal digits left to right; `none` on a non-digit. -/
def parseHexDigits (cs : List Char) : Option Nat :=
  cs.foldl (fun acc c => acc.bind (fun v => (hexVal c).map (fun d => v * 16 + d))) (some 0)

/-- `H512::from_str`: exactly 128 hexadecimal characters. -/
def parseH512 (cs : List Char) : Option NodeId :=
  if cs.length = 128 then parseHexDigits cs else none

/-- Decimal digit character (`m < 10`). -/
def decDigitChar : Nat → Char
  | 0 => '0' | 1 => '1' | 2 => '2' | 3 => '3' | 4 => '4'
  | 5 => '5' | 6 => '6' | 7 => '7' | 8 => '8' | _ => '9'

/-- Decimal rendering of `n` prepended to `acc`, with structural fuel
(one digit consumed per step; any fuel above the digit count of `n` gives
the same result). -/
def natToDecGo : Nat → Nat → List Char → List Char
  | 0, _, acc => acc
  | fuel + 1, n, acc =>
      if n < 10 then decDigitChar n :: acc
      else natToDecGo fuel (n / 10) (decDigitChar (n % 10) :: acc)

/-- Canonical decimal rendering of `n` (no leading zeros, nonempty);
`n + 1` always exceeds the digit count of `n`. -/
def natToDec (n : Nat) : List Char :=
  natToDecGo (n + 1) n []

/-- Decimal digit test. -/
def isDecDigit (c : Char) : Bool :=
  decide (48 ≤ c.toNat) && decide (c.toNat ≤ 57)

/-- Value of a run of decimal digit characters. -/
def parseDecDigits (ds : List Char) : Nat :=
  ds.foldl (fun v c => v * 10 + (c.toNat - 48)) 0

/-- Split off the longest leading run of decimal digits. -/
def spanDigits : List Char → List Char × List Char
  | [] => ([], [])
  | c :: cs =>
      if isDecDigit c then
        let p := spanDigits cs
        (c :: p.1, p.2)
      else ([], c :: cs)

/-! ### Socket-address text form and endpoint parsing -/

/-- One decimal octet: at least one and at most three digits, value at
most 255. -/
def parseOctet (cs : List Char) : Option (Nat × List Char) :=
  match spanDigits cs with
  | ([], _) => none
  | (ds, rest) =>
      if ds.length ≤ 3 && decide (parseDecDigits ds ≤ 255) then
        some (parseDecDigits ds, rest)
      else none

/-- A trailing decimal port: digits running to the end of the string,
value at most 65535. -/
def parsePort (cs : List Char) : Option Nat :=
  match spanDigits cs with
  | ([], _) => none
  | (ds, []) => if parseDecDigits ds ≤ 65535 then some (parseDecDigits ds) else none
  | (_, _ :: _) => none

/-- Modelled from the spec: parsing a `host:port` string "performs address
resolution" via the external `std` resolver (`to_socket_addrs`), which on
an IP-literal input yields that literal socket address without consulting
DNS.  Modelled here for IPv4 dotted-quad literals `a.b.c.d:p` — the only
textual form the persistence claims exercise; host names and bracketed
IPv6 literals stay with the external resolver. -/
def parseIpv4SocketAddr (cs : List Char) : Option SocketAddr :=
  match parseOctet cs with
  | none => none
  | some (b0, r0) =>
    match r0 with
    | [] => none
    | c0 :: r1 =>
      if c0 = '.' then
        match parseOctet r1 with
        | none => none
        | some (b1, r2) =>
          match r2 with
          | [] => none
          | c1 :: r3 =>
            if c1 = '.' then
              match parseOctet r3 with
              | none => none
              | some (b2, r4) =>
                match r4 with
                | [] => none
                | c2 :: r5 =>
                  if c2 = '.' then
                    match parseOctet r5 with
                    | none => none
                    | some (b3, r6) =>
                      match r6 with
                      | [] => none
                      | c3 :: r7 =>
                        if c3 = ':' then
                          match parsePort r7 with
                          | none => none
                          | some p => some (.v4 b0 b1 b2 b3 p)
                        else none
                  else none
            else none
      else none

/-- The textual form `std`'s `Display` gives an IPv4 socket address. -/
def displayIpv4 (b0 b1 b2 b3 p : Nat) : List Char :=
  natToDec b0 ++
    ('.' :: (natToDec b1 ++
      ('.' :: (natToDec b2 ++
        ('.' :: (natToDec b3 ++ (':' :: natToDec p)))))))

/-- Modelled from the spec: the external `std` `Display` of a socket
address, given for IPv4 literals (dotted quad and port); the IPv6 textual
form (zero-run compression) belongs to the external library and is left
out of the model (`none`), which no theorem below exercises. -/
def SocketAddr.display : SocketAddr → Option (List Char)
  | .v4 b0 b1 b2 b3 p => some (displayIpv4 b0 b1 b2 b3 p)
  | .v6 _ _ _ _ _ _ _ _ _ _ _ => none

/-- `network::ErrorKind` variants produced by node parsing. -/
inductive NodeError where
  | InvalidNodeId
  | AddressResolve
  deriving DecidableEq, Repr

/-- `impl FromStr for NodeEndpoint`: resolve the string through the
external resolver, take the first candidate, and use its port as the UDP
port; `none` from the resolver covers both an empty candidate list and a
resolution error (`AddressResolve`). -/
def NodeEndpoint.from_str (resolve : List Char → Option SocketAddr)
    (s : List Char) : Option NodeEndpoint :=
  (resolve s).map (fun a => ⟨a, a.port⟩)

/-- The 8-byte scheme marker `"enode://"`. -/
def enodeScheme : List Char :=
  ['e', 'n', 'o', 'd', 'e', ':', '/', '/']

/-- The bare-endpoint branch of `Node::from_str`: a zero id
(`NodeId::new()`) and the endpoint parsed from the whole string. -/
def bareNodeOfStr (resolve : List Char → Option SocketAddr)
    (s : List Char) : Except NodeError Node :=
  match NodeEndpoint.from_str resolve s with
  | none => .error .AddressResolve
  | some ep =>
      .ok { id := 0, endpoint := ep, peer_type := .Optional, attempts := 0, failures := 0 }

/-- `impl FromStr for Node`: when the string is longer than 136 bytes,
starts with `"enode://"` and has `"@"` at bytes 136..137, bytes 8..136 are
the 128-hex-digit id (failure: `InvalidNodeId`) and the rest after the `@`
is the endpoint; otherwise the whole string is a bare endpoint with a zero
id.  The byte slices `&s[0..8]` and `&s[136..137]` are taken before their
comparisons; an outer `none` models the panic Rust raises when such a
slice boundary is not a character boundary.  (The slices `&s[8..136]` and
`&s[137..]` cannot panic once those two succeeded.) -/
def Node.from_str (resolve : List Char → Option SocketAddr)
    (s : List Char) : Option (Except NodeError Node) :=
  if 136 < utf8Len s then
    match byteSlice s 0 8 with
    | none => none
    | some seg0 =>
      if seg0 = enodeScheme then
        match byteSlice s 136 137 with
        | none => none
        | some seg1 =>
          if seg1 = ['@'] then
            match byteSlice s 8 136, byteSlice s 137 (utf8Len s) with
            | some idChars, some epChars =>
                some (match parseH512 idChars with
                  | none => .error .InvalidNodeId
                  | some id =>
                      match NodeEndpoint.from_str resolve epChars with
                      | none => .error .AddressResolve
                      | some ep =>
                          .ok { id := id, endpoint := ep, peer_type := .Optional,
                                attempts := 0, failures := 0 })
            | _, _ => none
          else some (bareNodeOfStr resolve s)
      else some (bareNodeOfStr resolve s)
  else some (bareNodeOfStr resolve s)

/-- `validate_node_url`: `None` for a valid url, `Some e` for a parse
error; the outer `none` again models a panic. -/
def validate_node_url (resolve : List Char → Option SocketAddr)
    (url : List Char) : Option (Option NodeError) :=
  (Node.from_str resolve url).map (fun r =>
    match r with
    | .ok _ => none
    | .error e => some e)

/-- `impl Display for Node`:
`enode://<128-hex id>@<address>` with a `+<udp_port>` suffix exactly when
the UDP port differs from the address port.  `none` is inherited from the
unmodelled IPv6 address text form. -/
def Node.display (n : Node) : Option (List Char) :=
  (n.endpoint.address.display).map (fun addr =>
    let base := enodeScheme ++ hex128 n.id ++ '@' :: addr
    if n.endpoint.udp_port ≠ n.endpoint.address.port then
      base ++ '+' :: natToDec n.endpoint.udp_port
    else base)

/-! ### Persistence (`mod json`, `save`, `load`) -/

/-- `json::Node { url, attempts, failures }`; the url text is `none` only
when the address rendering lies outside the model (IPv6). -/
structure JsonNode where
  url : Option (List Char)
  attempts : Nat
  failures : Nat

/-- `json::NodeTable`. -/
structure JsonTable where
  nodes : List JsonNode

/-- `impl From<&Node> for json::Node`: render the url, keep the counters. -/
def jsonOfNode (n : Node) : JsonNode :=
  { url := n.display, attempts := n.attempts, failures := n.failures }

/-- `json::Node::into_node`: re-parse the url (through the external
resolver on the IPv4-literal model) and install the persisted counters;
any parse failure drops the record (`None`). -/
def JsonNode.into_node (j : JsonNode) : Option Node :=
  match j.url with
  | none => none
  | some cs =>
    match Node.from_str parseIpv4SocketAddr cs with
    | some (.ok n) => some { n with attempts := j.attempts, failures := j.failures }
    | _ => none

/-- `NodeTable::save`: nothing without a configured path; otherwise the
records in ranked order under the default (allow-all) filter, truncated to
`MAX_NODES`, rendered as json records.  The write to
`<path>/nodes.json` itself is external file I/O; its content is the
returned value. -/
def NodeTable.save (usablePrivate usablePublic : SocketAddr → Bool)
    (t : NodeTable) : Option JsonTable :=
  match t.path with
  | none => none
  | some _ =>
      some { nodes := (((t.rankedNodes usablePrivate usablePublic
          IpFilter.default).filterMap (fun i => t.lookup i)).take
            MAX_NODES).map jsonOfNode }

/-- `NodeTable::load`: a missing or structurally corrupt file (`none`)
yields an empty table; otherwise each record is re-parsed, unparsable
records are skipped, and the rest are collected into the id-keyed map
(later duplicates overwrite earlier ones, as `collect` into a `HashMap`
does). -/
def loadNodes (content : Option JsonTable) : List Node :=
  match content with
  | none => []
  | some tbl => (tbl.nodes.filterMap JsonNode.into_node).foldl mapInsert []

/-- `NodeTable::new`: load the persisted snapshot for the path (the
snapshot the file system associates with the path is passed explicitly),
with an empty useless set. -/
def NodeTable.new (path : Option String) (content : Option JsonTable) : NodeTable :=
  { path := path, nodes := loadNodes content, useless_nodes := [] }

/-! ### Concrete fixtures used by witnesses and counterexamples -/

/-- A concrete IPv4 endpoint (`22.99.55.44:7770`, UDP = TCP). -/
def sampleEndpoint : NodeEndpoint :=
  ⟨.v4 22 99 55 44 7770, 7770⟩

/-- The four-record scenario of the ranking specification: ids 1–4 with
`(attempts, failures)` = (2,2), (3,1), (1,0), (0,0). -/
def exampleTable : NodeTable :=
  { nodes :=
      [ { id := 1, endpoint := sampleEndpoint, peer_type := .Optional, attempts := 2, failures := 2 },
        { id := 2, endpoint := sampleEndpoint, peer_type := .Optional, attempts := 3, failures := 1 },
        { id := 3, endpoint := sampleEndpoint, peer_type := .Optional, attempts := 1, failures := 0 },
        { id := 4, endpoint := sampleEndpoint, peer_type := .Optional, attempts := 0, failures := 0 } ]
    useless_nodes := []
    path := none }

/-- A 139-byte input whose byte 8 falls inside the two-byte character
`'ß'`: longer than 136 bytes, so `Node::from_str` evaluates `&s[0..8]`,
which is not a character-boundary slice. -/
def panicUrl : List Char :=
  ['e', 'n', 'o', 'd', 'e', ':', '/', 'ß'] ++ List.replicate 130 'a'

/-- `parseDecDigits` with an explicit accumulator (for reasoning about the
fold; `parseDecDigits ds = parseDecFrom 0 ds` definitionally). -/
def parseDecFrom (v : Nat) (ds : List Char) : Nat :=
  ds.foldl (fun v c => v * 10 + (c.toNat - 48)) v

/-- `parseHexDigits` with an explicit accumulator
(`parseHexDigits cs = parseHexFrom 0 cs` definitionally). -/
def parseHexFrom (v : Nat) (cs : List Char) : Option Nat :=
  cs.foldl (fun acc c => acc.bind (fun v => (hexVal c).map (fun d => v * 16 + d))) (some v)

/-- The strict "ranks worse than" relation the comparator of
`ordered_entries` induces: higher failure percentage, or equal percentage
and more absolute failures, or both equal and fewer attempts. -/
def Node.rankGtP (a b : Node) : Prop :=
  b.failure_percentage < a.failure_percentage ∨
    (a.failure_percentage = b.failure_percentage ∧
      (b.failures < a.failures ∨ (a.failures = b.failures ∧ a.attempts < b.attempts)))

/-! ## Theorems -/

/-- C1.  The claim requires the byte pair `0x01, 0x02` of a 16-byte IP
field to decode to the group `0x0102` and never to `0x0201`, and encoding
to emit each group high byte first.  On the little-endian deployment
targets the transmuting decoder yields the swapped group `0x0201 = 513`
for that byte pair, and the encoder emits the group `0x0102` as the bytes
`0x02, 0x01`; only on a big-endian target do the bytes decode to
`0x0102 = 258` as claimed. -/
theorem from_rlp_little_endian_group_swapped :
    NodeEndpoint.from_rlp true
        ⟨[1, 2, 0, 0, 0, 0, 0, 0, 0, 0, 0, 0, 0, 0, 0, 0], 30303, 30303⟩ =
      .ok ⟨.v6 513 0 0 0 0 0 0 0 30303 0 0, 30303⟩ ∧
    513 ≠ 258 ∧
    (NodeEndpoint.to_rlp true ⟨.v6 258 0 0 0 0 0 0 0 30303 0 0, 30303⟩).ip_bytes =
      [2, 1, 0, 0, 0, 0, 0, 0, 0, 0, 0, 0, 0, 0, 0, 0] ∧
    NodeEndpoint.from_rlp false
        ⟨[1, 2, 0, 0, 0, 0, 0, 0, 0, 0, 0, 0, 0, 0, 0, 0], 30303, 30303⟩ =
      .ok ⟨.v6 258 0 0 0 0 0 0 0 30303 0 0, 30303⟩ := by
  refine ⟨rfl, by decide, rfl, rfl⟩

/-- C2.  Decoding the encoding of a well-formed endpoint (4-byte IPv4 or
16-byte IPv6 address, in either target byte order, the same on both
sides) succeeds and returns the endpoint with the same IP address, the
same TCP port and the same UDP port; IPv6 `flowinfo` and `scope_id` are
not carried by the wire triplet and come back as 0. -/
theorem from_rlp_to_rlp_list_roundtrip (le : Bool) (e : NodeEndpoint)
    (h : e.wellFormed = true) :
    NodeEndpoint.from_rlp le (e.to_rlp_list le) = .ok e.wireCanonical := by
  obtain ⟨addr, udp⟩ := e
  cases addr with
  | v4 b0 b1 b2 b3 p =>
      cases le <;> rfl
  | v6 s0 s1 s2 s3 s4 s5 s6 s7 p fl sc =>
      simp only [NodeEndpoint.wellFormed, Bool.and_eq_true, decide_eq_true_eq] at h
      obtain ⟨-, h0, h1, h2, h3, h4, h5, h6, h7, -⟩ := h
      cases le <;>
        simp [NodeEndpoint.to_rlp_list, NodeEndpoint.to_rlp, SocketAddr.port,
          u16Bytes, NodeEndpoint.from_rlp, NodeEndpoint.wireCanonical, u16OfBytes,
          Except.ok.injEq, NodeEndpoint.mk.injEq, SocketAddr.v6.injEq] <;>
        and_intros <;> first | trivial | omega

/-- C2 witness: a concrete IPv6 endpoint with asymmetric octets and
nonzero flow info. -/
theorem from_rlp_to_rlp_list_roundtrip_witness :
    (NodeEndpoint.wellFormed ⟨.v6 258 0 0 0 0 0 0 1 30303 7 9, 40404⟩ = true) ∧
    NodeEndpoint.from_rlp true
        (NodeEndpoint.to_rlp_list true ⟨.v6 258 0 0 0 0 0 0 1 30303 7 9, 40404⟩) =
      .ok ⟨.v6 258 0 0 0 0 0 0 1 30303 0 0, 40404⟩ :=
  ⟨by decide, from_rlp_to_rlp_list_roundtrip true _ (by decide)⟩

/-- C4 counterexample.  The claim's formula
`floor(failures*100/attempts/5)*5` over unbounded integers fails at
`attempts = 100, failures = 42949673`: the `u32` product `failures * 100 =
4294967300` wraps to `4`, so the code returns `0` while the claimed
formula gives `42949670`. -/
theorem failure_percentage_formula_counterexample :
    Node.failure_percentage
        { id := 1, endpoint := sampleEndpoint, peer_type := .Optional,
          attempts := 100, failures := 42949673 } = 0 ∧
    42949673 * 100 / 100 / 5 * 5 = 42949670 ∧
    ¬ Node.failure_percentage
        { id := 1, endpoint := sampleEndpoint, peer_type := .Optional,
          attempts := 100, failures := 42949673 } =
      42949673 * 100 / 100 / 5 * 5 := by
  refine ⟨by decide, by decide, by decide⟩

/-- C4 amended.  `failure_percentage` returns 50 when `attempts == 0`,
independent of `failures`; otherwise it returns
`floor((failures*100 mod 2^32)/attempts/5)*5` (the product is computed in
`u32`), which coincides with the claimed `floor(failures*100/attempts/5)*5`
whenever `failures * 100 < 2^32`. -/
theorem failure_percentage_amended :
    (∀ n : Node, n.attempts = 0 → n.failure_percentage = 50) ∧
    (∀ n : Node, n.attempts ≠ 0 →
      n.failure_percentage = n.failures * 100 % 2 ^ 32 / n.attempts / 5 * 5) ∧
    (∀ n : Node, n.attempts ≠ 0 → n.failures * 100 < 2 ^ 32 →
      n.failure_percentage = n.failures * 100 / n.attempts / 5 * 5) := by
  refine ⟨?_, ?_, ?_⟩ <;> intro n h
  · simp [Node.failure_percentage, h, DEFAULT_FAILURE_PERCENTAGE]
  · simp [Node.failure_percentage, h]
  · intro hlt
    simp only [Node.failure_percentage, h, if_false, Nat.mod_eq_of_lt hlt]

/-- C4 amended witness: all three branches at concrete records. -/
theorem failure_percentage_amended_witness :
    Node.failure_percentage
        { id := 1, endpoint := sampleEndpoint, peer_type := .Optional,
          attempts := 0, failures := 7 } = 50 ∧
    Node.failure_percentage
        { id := 1, endpoint := sampleEndpoint, peer_type := .Optional,
          attempts := 3, failures := 1 } = 1 * 100 % 2 ^ 32 / 3 / 5 * 5 ∧
    Node.failure_percentage
        { id := 1, endpoint := sampleEndpoint, peer_type := .Optional,
          attempts := 3, failures := 1 } = 1 * 100 / 3 / 5 * 5 :=
  ⟨failure_percentage_amended.1 _ rfl,
   failure_percentage_amended.2.1 _ (by decide),
   failure_percentage_amended.2.2 _ (by decide) (by decide)⟩

/-- C5.  The claim (and the function's own doc comment, "0..100") put
`failure_percentage` in `[0, 100]` for every record, including
`failures > attempts`; but at `attempts = 1, failures = 2` the code
returns `2 * 100 / 1 / 5 * 5 = 200`. -/
theorem failure_percentage_exceeds_100 :
    Node.failure_percentage
        { id := 1, endpoint := sampleEndpoint, peer_type := .Optional,
          attempts := 1, failures := 2 } = 200 ∧
    ¬ (200 : Nat) ≤ 100 := by
  refine ⟨by decide, by decide⟩

/-! ### Properties of the ranking comparator and the stable sort -/

theorem then_eq_gt_iff (o p : Ordering) :
    o.then p = .gt ↔ o = .gt ∨ (o = .eq ∧ p = .gt) := by
  cases o <;> simp [Ordering.then]

theorem rankCompare_eq_gt_iff (a b : Node) :
    Node.rankCompare a b = .gt ↔ Node.rankGtP a b := by
  simp only [Node.rankCompare, Node.rankGtP, then_eq_gt_iff,
    Nat.compare_eq_gt, Nat.compare_eq_eq]

theorem rankLE_true_iff (a b : Node) :
    Node.rankLE a b = true ↔ ¬ Node.rankGtP a b := by
  have hgt := rankCompare_eq_gt_iff a b
  unfold Node.rankLE
  cases h : Node.rankCompare a b with
  | lt => rw [h] at hgt; exact iff_of_true rfl (fun hp => absurd (hgt.2 hp) (by decide))
  | eq => rw [h] at hgt; exact iff_of_true rfl (fun hp => absurd (hgt.2 hp) (by decide))
  | gt => rw [h] at hgt; exact iff_of_false (by decide) (fun hn => hn (hgt.1 rfl))

theorem rankLE_total (a b : Node) (h : Node.rankLE a b = false) :
    Node.rankLE b a = true := by
  rw [rankLE_true_iff]
  rw [Bool.eq_false_iff, Ne, rankLE_true_iff, not_not] at h
  unfold Node.rankGtP at h ⊢
  omega

theorem rankLE_trans (a b c : Node) (hab : Node.rankLE a b = true)
    (hbc : Node.rankLE b c = true) : Node.rankLE a c = true := by
  rw [rankLE_true_iff] at hab hbc ⊢
  unfold Node.rankGtP at hab hbc ⊢
  omega

theorem insertRanked_perm (le : Node → Node → Bool) (x : Node) :
    ∀ l : List Node, (insertRanked le x l).Perm (x :: l) := by
  intro l
  induction l with
  | nil => simp [insertRanked]
  | cons y ys ih =>
      unfold insertRanked
      by_cases h : le x y = true
      · simp [h]
      · rw [Bool.not_eq_true] at h
        simp only [h, Bool.false_eq_true, if_false]
        exact (ih.cons y).trans (List.Perm.swap x y ys)

theorem sortRanked_perm (le : Node → Node → Bool) :
    ∀ l : List Node, (sortRanked le l).Perm l := by
  intro l
  induction l with
  | nil => simp [sortRanked]
  | cons x xs ih =>
      unfold sortRanked
      exact ((insertRanked_perm le x _).trans (ih.cons x))

theorem mem_insertRanked {le : Node → Node → Bool} {x z : Node} {l : List Node} :
    z ∈ insertRanked le x l ↔ z = x ∨ z ∈ l := by
  rw [(insertRanked_perm le x l).mem_iff, List.mem_cons]

theorem sorted_insertRanked (x : Node) (l : List Node)
    (hs : List.Sorted (fun a b => Node.rankLE a b = true) l) :
    List.Sorted (fun a b => Node.rankLE a b = true) (insertRanked Node.rankLE x l) := by
  induction l with
  | nil => simp [insertRanked]
  | cons y ys ih =>
      rw [List.sorted_cons] at hs
      obtain ⟨hy, hys⟩ := hs
      unfold insertRanked
      by_cases h : Node.rankLE x y = true
      · rw [if_pos h, List.sorted_cons]
        refine ⟨?_, List.sorted_cons.2 ⟨hy, hys⟩⟩
        intro z hz
        rcases List.mem_cons.1 hz with rfl | hz
        · exact h
        · exact rankLE_trans x y z h (hy z hz)
      · rw [Bool.not_eq_true] at h
        simp only [h, Bool.false_eq_true, if_false]
        rw [List.sorted_cons]
        refine ⟨?_, ih hys⟩
        intro z hz
        rcases mem_insertRanked.1 hz with rfl | hz
        · exact rankLE_total z y h
        · exact hy z hz

theorem sorted_sortRanked (l : List Node) :
    List.Sorted (fun a b => Node.rankLE a b = true) (sortRanked Node.rankLE l) := by
  induction l with
  | nil => simp [sortRanked]
  | cons x xs ih => exact sorted_insertRanked x _ ih

/-- With the default (allow-all, no custom networks) filter every endpoint
is allowed, whatever the external usable-ip predicates say. -/
theorem is_allowed_default (up upub : SocketAddr → Bool) (e : NodeEndpoint) :
    e.is_allowed up upub IpFilter.default = true := rfl

/-- C3.  `ordered_entries` (hence `nodes` / `entries`) lists exactly the
non-useless records, in an order sorted by the comparator "failure
percentage ascending, then absolute failures ascending, then attempts
descending"; on the four-record scenario with `(attempts, failures)` =
(1,0), (3,1), (0,0), (2,2) the ranked id order is the 0% record, the
30%-bucket record, the 0-attempt (50% default) record, then the 100%
record: `[3, 2, 4, 1]`. -/
theorem ordered_entries_ranking :
    (∀ t : NodeTable,
      List.Sorted (fun a b => Node.rankLE a b = true) t.ordered_entries) ∧
    (∀ t : NodeTable,
      t.ordered_entries.Perm
        (t.nodes.filter (fun n => !(t.useless_nodes.contains n.id)))) ∧
    (∀ up upub : SocketAddr → Bool,
      exampleTable.rankedNodes up upub IpFilter.default = [3, 2, 4, 1]) := by
  refine ⟨fun t => sorted_sortRanked _, fun t => sortRanked_perm _ _, fun up upub => ?_⟩
  show (List.filter _ _).map _ = _
  rw [List.filter_congr (l := exampleTable.ordered_entries)
    (fun x _ => is_allowed_default up upub x.endpoint)]
  rw [List.filter_true]
  decide

/-! ### Lookup lemmas for the id-keyed record map -/

theorem find?_append_of_none {p : Node → Bool} {l1 l2 : List Node}
    (h : l1.find? p = none) : (l1 ++ l2).find? p = l2.find? p := by
  induction l1 with
  | nil => rfl
  | cons x xs ih =>
      rw [List.find?_cons] at h
      cases hx : p x with
      | true => rw [hx] at h; exact absurd h (by simp)
      | false =>
          rw [hx] at h
          rw [List.cons_append, List.find?_cons, hx]
          exact ih h

/-- Replacing by `g` exactly the elements keyed `K` moves `find?` for key
`K` through the map, provided `g` keeps the key of such elements. -/
theorem find?_map_update (K : NodeId) (g : Node → Node)
    (hg : ∀ m : Node, m.id = K → (g m).id = K) :
    ∀ (ns : List Node) (old : Node),
      ns.find? (fun m => m.id == K) = some old →
      (ns.map (fun m => if m.id == K then g m else m)).find?
          (fun m => m.id == K) = some (g old) := by
  intro ns
  induction ns with
  | nil => intro old h; exact absurd h (by simp)
  | cons m ms ih =>
      intro old h
      cases hm : (m.id == K) with
      | true =>
          have hid : m.id = K := by simpa using hm
          rw [List.find?_cons_of_pos (p := fun x : Node => x.id == K) ms hm] at h
          obtain rfl : m = old := by simpa using h
          rw [List.map_cons, if_pos hm]
          exact List.find?_cons_of_pos (p := fun x : Node => x.id == K) _
            (by simpa using hg m hid)
      | false =>
          rw [List.find?_cons_of_neg (p := fun x : Node => x.id == K) ms (by simp [hm])] at h
          rw [List.map_cons, if_neg (by simp [hm]),
            List.find?_cons_of_neg (p := fun x : Node => x.id == K) _ (by simp [hm])]
          exact ih old h

theorem find?_mapInsert_self (ns : List Node) (n : Node) :
    (mapInsert ns n).find? (fun m => m.id == n.id) = some n := by
  unfold mapInsert
  cases hany : ns.any (fun m => m.id == n.id) with
  | false =>
      rw [if_neg (by simp [hany])]
      rw [find?_append_of_none]
      · simp [List.find?_cons]
      · rw [List.find?_eq_none]
        intro m hm
        exact (List.any_eq_false.1 hany) m hm
  | true =>
      rw [if_pos (by simp [hany])]
      cases hold : ns.find? (fun m => m.id == n.id) with
      | none =>
          obtain ⟨x, hx, hpx⟩ := List.any_eq_true.1 hany
          exact absurd (List.find?_eq_none.1 hold x hx) (by simpa using hpx)
      | some old =>
          exact find?_map_update n.id (fun _ => n) (fun _ _ => rfl) ns old hold

theorem find?_upsert_present (ns : List Node) (e : NodeEntry) (old : Node)
    (h : ns.find? (fun m => m.id == e.id) = some old) :
    (upsertEntry ns e).find? (fun m => m.id == e.id) =
      some { old with endpoint := e.endpoint } := by
  unfold upsertEntry
  have hany : ns.any (fun m => m.id == e.id) = true := by
    refine List.any_eq_true.2
      ⟨old, List.mem_of_find?_eq_some h, by simpa using List.find?_some h⟩
  rw [if_pos (by simp [hany])]
  exact find?_map_update e.id (fun m => { m with endpoint := e.endpoint })
    (fun m hm => hm) ns old h

theorem find?_upsert_absent (ns : List Node) (e : NodeEntry)
    (h : ns.find? (fun m => m.id == e.id) = none) :
    (upsertEntry ns e).find? (fun m => m.id == e.id) =
      some (Node.new e.id e.endpoint) := by
  unfold upsertEntry
  have hany : ns.any (fun m => m.id == e.id) = false := by
    rw [List.any_eq_false]
    exact fun m hm => List.find?_eq_none.1 h m hm
  rw [if_neg (by simp [hany])]
  rw [find?_append_of_none h]
  simp [List.find?_cons, Node.new]

/-- C6.  Re-adding an id already present through `add_node` preserves the
record's prior `attempts` / `failures` (replacing the rest of the record
with the new one); a discovery upsert on a present id rewrites only the
endpoint, keeping every other field, and on an absent id creates a fresh
record with zero counters. -/
theorem counters_preserved_on_readd_and_upsert :
    (∀ (t : NodeTable) (node old : Node), t.lookup node.id = some old →
      (t.add_node node).lookup node.id =
        some { node with attempts := old.attempts, failures := old.failures }) ∧
    (∀ (t : NodeTable) (e : NodeEntry) (old : Node) (reserved : List NodeId),
      t.lookup e.id = some old →
      (t.update ⟨[e], []⟩ reserved).lookup e.id =
        some { old with endpoint := e.endpoint }) ∧
    (∀ (t : NodeTable) (e : NodeEntry) (reserved : List NodeId),
      t.lookup e.id = none →
      (t.update ⟨[e], []⟩ reserved).lookup e.id =
        some (Node.new e.id e.endpoint)) := by
  refine ⟨?_, ?_, ?_⟩
  · intro t node old h
    unfold NodeTable.add_node
    simp only [h]
    exact find?_mapInsert_self t.nodes
      { node with attempts := old.attempts, failures := old.failures }
  · intro t e old reserved h
    exact find?_upsert_present t.nodes e old h
  · intro t e reserved h
    exact find?_upsert_absent t.nodes e h

/-- C6 witness: all three branches at the concrete table. -/
theorem counters_preserved_witness :
    (exampleTable.lookup 2 =
      some { id := 2, endpoint := sampleEndpoint, peer_type := .Optional,
             attempts := 3, failures := 1 }) ∧
    ((exampleTable.add_node
        { id := 2, endpoint := sampleEndpoint, peer_type := .Required,
          attempts := 0, failures := 0 }).lookup 2 =
      some { id := 2, endpoint := sampleEndpoint, peer_type := .Required,
             attempts := 3, failures := 1 }) ∧
    ((exampleTable.update ⟨[⟨2, ⟨.v4 9 9 9 9 30303, 30303⟩⟩], []⟩ []).lookup 2 =
      some { id := 2, endpoint := ⟨.v4 9 9 9 9 30303, 30303⟩, peer_type := .Optional,
             attempts := 3, failures := 1 }) ∧
    (exampleTable.lookup 7 = none) ∧
    ((exampleTable.update ⟨[⟨7, sampleEndpoint⟩], []⟩ []).lookup 7 =
      some (Node.new 7 sampleEndpoint)) := by
  refine ⟨by decide, ?_, ?_, by decide, ?_⟩
  · exact counters_preserved_on_readd_and_upsert.1 exampleTable
      ⟨2, sampleEndpoint, .Required, 0, 0⟩ ⟨2, sampleEndpoint, .Optional, 3, 1⟩
      (by decide)
  · exact counters_preserved_on_readd_and_upsert.2.1 exampleTable
      ⟨2, ⟨.v4 9 9 9 9 30303, 30303⟩⟩ ⟨2, sampleEndpoint, .Optional, 3, 1⟩ []
      (by decide)
  · exact counters_preserved_on_readd_and_upsert.2.2 exampleTable
      ⟨7, sampleEndpoint⟩ [] (by decide)

theorem find?_filter_erase_self (r : NodeId) :
    ∀ ns : List Node,
      (ns.filter (fun n => !(n.id == r))).find? (fun n => n.id == r) = none := by
  intro ns
  induction ns with
  | nil => rfl
  | cons m ms ih =>
      cases hm : (m.id == r) with
      | true => rw [List.filter_cons, if_neg (by simp [hm])]; exact ih
      | false =>
          rw [List.filter_cons, if_pos (by simp [hm]),
            List.find?_cons_of_neg (p := fun x : Node => x.id == r) _ (by simp [hm])]
          exact ih

theorem find?_filter_erase_ne (r i : NodeId) (h : i ≠ r) :
    ∀ ns : List Node,
      (ns.filter (fun n => !(n.id == r))).find? (fun n => n.id == i) =
        ns.find? (fun n => n.id == i) := by
  intro ns
  induction ns with
  | nil => rfl
  | cons m ms ih =>
      cases hm : (m.id == r) with
      | true =>
          have hmr : m.id = r := by simpa using hm
          have hmi : (m.id == i) = false := by
            rw [beq_eq_false_iff_ne]
            exact fun e => h (e.symm.trans hmr)
          rw [List.filter_cons, if_neg (by simp [hm]),
            List.find?_cons_of_neg (p := fun x : Node => x.id == i) ms (by simp [hmi])]
          exact ih
      | false =>
          rw [List.filter_cons, if_pos (by simp [hm])]
          cases hmi : (m.id == i) with
          | true =>
              rw [List.find?_cons_of_pos (p := fun x : Node => x.id == i) _ hmi,
                List.find?_cons_of_pos (p := fun x : Node => x.id == i) ms hmi]
          | false =>
              rw [List.find?_cons_of_neg (p := fun x : Node => x.id == i) _ (by simp [hmi]),
                List.find?_cons_of_neg (p := fun x : Node => x.id == i) ms (by simp [hmi])]
              exact ih

/-- C7.  A discovery removal of a reserved id leaves the table unchanged;
a removal of a non-reserved id deletes the record entirely (its lookup
becomes `none`) and touches no other id. -/
theorem update_removed_respects_reserved :
    (∀ (t : NodeTable) (r : NodeId) (reserved : List NodeId),
      reserved.contains r = true → t.update ⟨[], [r]⟩ reserved = t) ∧
    (∀ (t : NodeTable) (r : NodeId) (reserved : List NodeId),
      reserved.contains r = false →
        (t.update ⟨[], [r]⟩ reserved).lookup r = none ∧
        ∀ i : NodeId, i ≠ r →
          (t.update ⟨[], [r]⟩ reserved).lookup i = t.lookup i) := by
  constructor
  · intro t r reserved h
    unfold NodeTable.update
    simp only [List.foldl_cons, List.foldl_nil]
    rw [if_pos h]
  · intro t r reserved h
    constructor
    · unfold NodeTable.update NodeTable.lookup
      simp only [List.foldl_cons, List.foldl_nil]
      rw [if_neg (by simpa using h)]
      exact find?_filter_erase_self r t.nodes
    · intro i hi
      unfold NodeTable.update NodeTable.lookup
      simp only [List.foldl_cons, List.foldl_nil]
      rw [if_neg (by simpa using h)]
      exact find?_filter_erase_ne r i hi t.nodes

/-- C7 witness: removing id 3 with id 3 reserved is a no-op; removing an
unreserved id 3 deletes exactly that record. -/
theorem update_removed_respects_reserved_witness :
    ([(3 : NodeId)].contains (3 : NodeId) = true ∧
      exampleTable.update ⟨[], [3]⟩ [3] = exampleTable) ∧
    ([(9 : NodeId)].contains (3 : NodeId) = false ∧
      (exampleTable.update ⟨[], [3]⟩ [9]).lookup 3 = none ∧
      (2 : NodeId) ≠ 3 ∧
      (exampleTable.update ⟨[], [3]⟩ [9]).lookup 2 = exampleTable.lookup 2) :=
  ⟨⟨by decide, update_removed_respects_reserved.1 exampleTable 3 [3] (by decide)⟩,
   ⟨by decide,
    (update_removed_respects_reserved.2 exampleTable 3 [9] (by decide)).1,
    by decide,
    (update_removed_respects_reserved.2 exampleTable 3 [9] (by decide)).2 2 (by decide)⟩⟩

/-- C8.  Marking a present id useless removes it from the ranked output
(`entries`, hence `nodes`) while the record itself stays present and
untouched (same lookup); clearing the useless set leaves all records
untouched and restores every present id — the marked one included — to the
ranked output. -/
theorem mark_useless_excludes_and_clear_restores :
    ∀ (t : NodeTable) (i : NodeId), t.containsId i = true →
      (i ∉ (t.mark_as_useless i).entries.map (fun e => e.id)) ∧
      ((t.mark_as_useless i).lookup i = t.lookup i) ∧
      (∀ j : NodeId, ((t.mark_as_useless i).clear_useless).lookup j = t.lookup j) ∧
      (∀ j : NodeId, t.containsId j = true →
        j ∈ ((t.mark_as_useless i).clear_useless).entries.map (fun e => e.id)) := by
  intro t i hi
  refine ⟨?_, rfl, fun j => rfl, ?_⟩
  · intro hmem
    rw [List.mem_map] at hmem
    obtain ⟨e, he, hei⟩ := hmem
    unfold NodeTable.entries at he
    rw [List.mem_map] at he
    obtain ⟨n, hn, rfl⟩ := he
    have hni : n.id = i := hei
    unfold NodeTable.ordered_entries at hn
    rw [(sortRanked_perm _ _).mem_iff, List.mem_filter] at hn
    obtain ⟨-, hcond⟩ := hn
    have hmarked : (t.mark_as_useless i).useless_nodes.contains i = true := by
      unfold NodeTable.mark_as_useless
      cases hc : t.useless_nodes.contains i with
      | true => simpa [hc] using hc
      | false => simp [hc]
    rw [hni, hmarked] at hcond
    exact absurd hcond (by simp)
  · intro j hj
    obtain ⟨n, hn, hnj⟩ := List.any_eq_true.1 hj
    have hnj' : n.id = j := by simpa using hnj
    rw [List.mem_map]
    refine ⟨{ endpoint := n.endpoint, id := n.id }, ?_, hnj'⟩
    unfold NodeTable.entries
    rw [List.mem_map]
    refine ⟨n, ?_, rfl⟩
    unfold NodeTable.ordered_entries
    rw [(sortRanked_perm _ _).mem_iff, List.mem_filter]
    exact ⟨hn, by simp [NodeTable.clear_useless]⟩

/-- C8 witness: marking id 2 of the concrete table. -/
theorem mark_useless_excludes_and_clear_restores_witness :
    exampleTable.containsId 2 = true ∧
    (2 ∉ (exampleTable.mark_as_useless 2).entries.map (fun e => e.id)) ∧
    ((exampleTable.mark_as_useless 2).lookup 2 = exampleTable.lookup 2) ∧
    (((exampleTable.mark_as_useless 2).clear_useless).lookup 2 = exampleTable.lookup 2) ∧
    (2 ∈ ((exampleTable.mark_as_useless 2).clear_useless).entries.map (fun e => e.id)) := by
  have h := mark_useless_excludes_and_clear_restores exampleTable 2 (by decide)
  exact ⟨by decide, h.1, h.2.1, h.2.2.1 2, h.2.2.2 2 (by decide)⟩

set_option maxRecDepth 100000

/-- C10.  The claim says no parsing operation panics on
attacker-controlled input.  `Node::from_str` slices its input by byte
index (`&s[0..8]`) after checking only the byte length; on `panicUrl`
(139 bytes, byte 8 inside the two-byte character `'ß'`) the slice is not
on a character boundary and Rust panics — the model returns the panic
marker `none`, not a typed error, whatever the resolver does.  The
`from_rlp` half of the claim does hold: an IP field whose length is
neither 4 nor 16 yields the length/data-inconsistency error, shown here
at lengths 3 and 5. -/
theorem from_str_panics_on_non_boundary :
    136 < utf8Len panicUrl ∧
    Node.from_str (fun _ => none) panicUrl = none ∧
    NodeEndpoint.from_rlp true ⟨[1, 2, 3], 7, 7⟩ =
      .error .RlpInconsistentLengthAndData ∧
    NodeEndpoint.from_rlp true ⟨List.replicate 5 0, 7, 7⟩ =
      .error .RlpInconsistentLengthAndData := by
  refine ⟨by decide, rfl, rfl, rfl⟩

/-! ### Decimal rendering round-trips through the literal parser -/

theorem decDigitChar_toNat_of_lt (m : Nat) (h : m < 10) :
    (decDigitChar m).toNat = 48 + m := by
  unfold decDigitChar
  rcases m with _|_|_|_|_|_|_|_|_|m
  any_goals decide
  have hm : m = 0 := by omega
  subst hm
  decide

theorem decDigitChar_bounds (m : Nat) :
    48 ≤ (decDigitChar m).toNat ∧ (decDigitChar m).toNat ≤ 57 := by
  unfold decDigitChar
  rcases m with _|_|_|_|_|_|_|_|_|m
  any_goals decide
  exact (by decide : 48 ≤ ('9').toNat ∧ ('9').toNat ≤ 57)

theorem natToDecGo_append (f : Nat) :
    ∀ (n : Nat), n < 10 ^ (f + 1) →
      ∀ acc, natToDecGo (f + 1) n acc = natToDecGo (f + 1) n [] ++ acc := by
  induction f with
  | zero =>
      intro n hn acc
      have h : n < 10 := by simpa using hn
      unfold natToDecGo
      rw [if_pos h, if_pos h]
      rfl
  | succ f ih =>
      intro n hn acc
      by_cases h : n < 10
      · unfold natToDecGo
        rw [if_pos h, if_pos h]
        rfl
      · unfold natToDecGo
        rw [if_neg h, if_neg h]
        have hd : n / 10 < 10 ^ (f + 1) := by
          rw [pow_succ] at hn
          omega
        rw [ih (n / 10) hd (decDigitChar (n % 10) :: acc),
          ih (n / 10) hd [decDigitChar (n % 10)]]
        simp

theorem natToDecGo_fuel (f : Nat) :
    ∀ (g n : Nat), n < 10 ^ (f + 1) → n < 10 ^ (g + 1) →
      ∀ acc, natToDecGo (f + 1) n acc = natToDecGo (g + 1) n acc := by
  induction f with
  | zero =>
      intro g n hf hg acc
      have h : n < 10 := by simpa using hf
      unfold natToDecGo
      rw [if_pos h]
      cases g with
      | zero => rw [if_pos h]
      | succ g => rw [if_pos h]
  | succ f ih =>
      intro g n hf hg acc
      by_cases h : n < 10
      · unfold natToDecGo
        rw [if_pos h]
        cases g with
        | zero => rw [if_pos h]
        | succ g => rw [if_pos h]
      · cases g with
        | zero =>
            exfalso
            have : n < 10 := by simpa using hg
            omega
        | succ g =>
            unfold natToDecGo
            rw [if_neg h, if_neg h]
            have hdf : n / 10 < 10 ^ (f + 1) := by rw [pow_succ] at hf; omega
            have hdg : n / 10 < 10 ^ (g + 1) := by rw [pow_succ] at hg; omega
            exact ih g (n / 10) hdf hdg _

theorem self_lt_ten_pow (n : Nat) : n < 10 ^ (n + 1) := by
  calc n < 10 ^ n := Nat.lt_pow_self (by omega) n
    _ ≤ 10 ^ (n + 1) := Nat.pow_le_pow_right (by omega) (by omega)

theorem natToDec_lt10 (n : Nat) (h : n < 10) : natToDec n = [decDigitChar n] := by
  unfold natToDec natToDecGo
  rw [if_pos h]

theorem natToDec_ge10 (n : Nat) (h : ¬ n < 10) :
    natToDec n = natToDec (n / 10) ++ [decDigitChar (n % 10)] := by
  obtain ⟨f, rfl⟩ : ∃ f, n = f + 1 := ⟨n - 1, by omega⟩
  show natToDecGo (f + 1 + 1) (f + 1) [] = _
  unfold natToDecGo
  rw [if_neg h]
  have hb : (f + 1) / 10 < 10 ^ (f + 1) :=
    Nat.lt_of_lt_of_le (Nat.div_lt_self (by omega) (by omega))
      (Nat.succ_le_of_lt (self_lt_ten_pow f))
  rw [natToDecGo_append f ((f + 1) / 10) hb [decDigitChar ((f + 1) % 10)]]
  have hfb : (f + 1) / 10 < 10 ^ ((f + 1) / 10 + 1) := self_lt_ten_pow _
  rw [natToDecGo_fuel f ((f + 1) / 10) ((f + 1) / 10) hb hfb []]
  rfl

theorem mem_natToDec (n : Nat) :
    ∀ c ∈ natToDec n, 48 ≤ c.toNat ∧ c.toNat ≤ 57 := by
  induction n using Nat.strong_induction_on with
  | _ n ih =>
      intro c hc
      by_cases h : n < 10
      · rw [natToDec_lt10 n h] at hc
        rcases List.mem_singleton.1 hc with rfl
        exact decDigitChar_bounds n
      · rw [natToDec_ge10 n h] at hc
        rcases List.mem_append.1 hc with hc | hc
        · exact ih (n / 10) (Nat.div_lt_self (by omega) (by omega)) c hc
        · rcases List.mem_singleton.1 hc with rfl
          exact decDigitChar_bounds (n % 10)

theorem natToDec_ne_nil (n : Nat) : natToDec n ≠ [] := by
  by_cases h : n < 10
  · rw [natToDec_lt10 n h]; simp
  · rw [natToDec_ge10 n h]; simp

theorem length_natToDec_le (k : Nat) :
    ∀ n : Nat, n < 10 ^ (k + 1) → (natToDec n).length ≤ k + 1 := by
  induction k with
  | zero =>
      intro n hn
      have h : n < 10 := by simpa using hn
      rw [natToDec_lt10 n h]
      simp
  | succ k ih =>
      intro n hn
      by_cases h : n < 10
      · rw [natToDec_lt10 n h]
        simp
      · rw [natToDec_ge10 n h, List.length_append]
        have hdiv : n / 10 < 10 ^ (k + 1) := by
          rw [pow_succ] at hn
          omega
        have := ih (n / 10) hdiv
        simp only [List.length_cons, List.length_nil]
        omega

theorem parseDecFrom_natToDec (n : Nat) :
    ∀ v : Nat, parseDecFrom v (natToDec n) =
      v * 10 ^ (natToDec n).length + n := by
  induction n using Nat.strong_induction_on with
  | _ n ih =>
      intro v
      by_cases h : n < 10
      · rw [natToDec_lt10 n h]
        show v * 10 + ((decDigitChar n).toNat - 48) = v * 10 ^ 1 + n
        rw [decDigitChar_toNat_of_lt n h]
        omega
      · rw [natToDec_ge10 n h]
        unfold parseDecFrom
        rw [List.foldl_append]
        have hrec := ih (n / 10) (Nat.div_lt_self (by omega) (by omega)) v
        unfold parseDecFrom at hrec
        rw [hrec, List.length_append]
        show (v * 10 ^ (natToDec (n / 10)).length + n / 10) * 10 +
            ((decDigitChar (n % 10)).toNat - 48) =
          v * 10 ^ ((natToDec (n / 10)).length + 1) + n
        rw [decDigitChar_toNat_of_lt (n % 10) (by omega), pow_succ, ← Nat.mul_assoc]
        generalize v * 10 ^ (natToDec (n / 10)).length = A
        omega

theorem parseDecDigits_natToDec (n : Nat) : parseDecDigits (natToDec n) = n := by
  have h := parseDecFrom_natToDec n 0
  simpa [parseDecFrom, parseDecDigits] using h

theorem isDecDigit_of_bounds (c : Char) (h : 48 ≤ c.toNat ∧ c.toNat ≤ 57) :
    isDecDigit c = true := by
  unfold isDecDigit
  simp only [Bool.and_eq_true, decide_eq_true_eq]
  omega

theorem isDecDigit_natToDec (n : Nat) :
    ∀ c ∈ natToDec n, isDecDigit c = true :=
  fun c hc => isDecDigit_of_bounds c (mem_natToDec n c hc)

theorem spanDigits_append (ds : List Char) (x : Char) (r : List Char)
    (hds : ∀ c ∈ ds, isDecDigit c = true) (hx : isDecDigit x = false) :
    spanDigits (ds ++ x :: r) = (ds, x :: r) := by
  induction ds with
  | nil =>
      show spanDigits (x :: r) = ([], x :: r)
      unfold spanDigits
      rw [if_neg (by simp [hx])]
  | cons c cs ih =>
      have hc : isDecDigit c = true := hds c (by simp)
      show spanDigits (c :: (cs ++ x :: r)) = (c :: cs, x :: r)
      unfold spanDigits
      rw [if_pos hc]
      show (c :: (spanDigits (cs ++ x :: r)).1, (spanDigits (cs ++ x :: r)).2) = _
      rw [ih (fun d hd => hds d (by simp [hd]))]

theorem spanDigits_all (ds : List Char)
    (hds : ∀ c ∈ ds, isDecDigit c = true) :
    spanDigits ds = (ds, []) := by
  induction ds with
  | nil => rfl
  | cons c cs ih =>
      have hc : isDecDigit c = true := hds c (by simp)
      unfold spanDigits
      rw [if_pos hc]
      show (c :: (spanDigits cs).1, (spanDigits cs).2) = _
      rw [ih (fun d hd => hds d (by simp [hd]))]

theorem parseOctet_display (b : Nat) (hb : b ≤ 255) (x : Char)
    (hx : isDecDigit x = false) (r : List Char) :
    parseOctet (natToDec b ++ x :: r) = some (b, x :: r) := by
  unfold parseOctet
  rw [spanDigits_append (natToDec b) x r (isDecDigit_natToDec b) hx]
  rcases hnn : natToDec b with _ | ⟨d, ds⟩
  · exact absurd hnn (natToDec_ne_nil b)
  · have hval : parseDecDigits (d :: ds) = b := by
      rw [← hnn]; exact parseDecDigits_natToDec b
    have hlen : ds.length + 1 ≤ 3 := by
      have h3 : (natToDec b).length ≤ 3 := length_natToDec_le 2 b (by omega)
      rw [hnn, List.length_cons] at h3
      exact h3
    show (if (d :: ds).length ≤ 3 && decide (parseDecDigits (d :: ds) ≤ 255) then
          some (parseDecDigits (d :: ds), x :: r) else none) = some (b, x :: r)
    rw [hval, if_pos (by simp only [List.length_cons, Bool.and_eq_true,
      decide_eq_true_eq]; omega)]

theorem parsePort_display (p : Nat) (hp : p ≤ 65535) :
    parsePort (natToDec p) = some p := by
  unfold parsePort
  rw [spanDigits_all (natToDec p) (isDecDigit_natToDec p)]
  rcases hnn : natToDec p with _ | ⟨d, ds⟩
  · exact absurd hnn (natToDec_ne_nil p)
  · have hval : parseDecDigits (d :: ds) = p := by
      rw [← hnn]; exact parseDecDigits_natToDec p
    show (if parseDecDigits (d :: ds) ≤ 65535 then
          some (parseDecDigits (d :: ds)) else none) = some p
    rw [hval, if_pos hp]

theorem parseIpv4_display (b0 b1 b2 b3 p : Nat)
    (h0 : b0 ≤ 255) (h1 : b1 ≤ 255) (h2 : b2 ≤ 255) (h3 : b3 ≤ 255)
    (hp : p ≤ 65535) :
    parseIpv4SocketAddr (displayIpv4 b0 b1 b2 b3 p) =
      some (.v4 b0 b1 b2 b3 p) := by
  unfold parseIpv4SocketAddr displayIpv4
  rw [parseOctet_display b0 h0 '.' (by decide)]
  dsimp only
  rw [if_pos rfl, parseOctet_display b1 h1 '.' (by decide)]
  dsimp only
  rw [if_pos rfl, parseOctet_display b2 h2 '.' (by decide)]
  dsimp only
  rw [if_pos rfl, parseOctet_display b3 h3 ':' (by decide)]
  dsimp only
  rw [if_pos rfl, parsePort_display p hp]

/-! ### Hexadecimal id rendering round-trips through the hex parser -/

theorem hexDigitChar_toNat_lt (m : Nat) : (hexDigitChar m).toNat < 128 := by
  unfold hexDigitChar
  rcases m with _|_|_|_|_|_|_|_|_|_|_|_|_|_|_|m
  any_goals decide
  exact (by decide : ('f').toNat < 128)

theorem hexVal_hexDigitChar (m : Nat) (h : m < 16) :
    hexVal (hexDigitChar m) = some m := by
  unfold hexDigitChar
  rcases m with _|_|_|_|_|_|_|_|_|_|_|_|_|_|_|m
  any_goals decide
  have hm : m = 0 := by omega
  subst hm
  decide

theorem natToHexW_length (w : Nat) :
    ∀ (n : Nat) (acc : List Char), (natToHexW w n acc).length = w + acc.length := by
  induction w with
  | zero => intro n acc; simp [natToHexW]
  | succ w ih =>
      intro n acc
      unfold natToHexW
      rw [ih (n / 16) (hexDigitChar (n % 16) :: acc)]
      simp only [List.length_cons]
      omega

theorem mem_natToHexW (w : Nat) :
    ∀ (n : Nat) (acc : List Char) (c : Char), c ∈ natToHexW w n acc →
      c ∈ acc ∨ ∃ m, m < 16 ∧ c = hexDigitChar m := by
  induction w with
  | zero => intro n acc c hc; exact .inl hc
  | succ w ih =>
      intro n acc c hc
      unfold natToHexW at hc
      rcases ih (n / 16) (hexDigitChar (n % 16) :: acc) c hc with hc | hc
      · rcases List.mem_cons.1 hc with rfl | hc
        · exact .inr ⟨n % 16, Nat.mod_lt _ (by omega), rfl⟩
        · exact .inl hc
      · exact .inr hc

theorem parseHexFrom_natToHexW (w : Nat) :
    ∀ (n v : Nat) (acc : List Char), n < 16 ^ w →
      parseHexFrom v (natToHexW w n acc) =
        parseHexFrom (v * 16 ^ w + n) acc := by
  induction w with
  | zero =>
      intro n v acc hn
      have hn0 : n = 0 := by omega
      subst hn0
      show parseHexFrom v acc = parseHexFrom (v * 1 + 0) acc
      simp
  | succ w ih =>
      intro n v acc hn
      unfold natToHexW
      have hdiv : n / 16 < 16 ^ w := by
        rw [pow_succ] at hn
        omega
      rw [ih (n / 16) v (hexDigitChar (n % 16) :: acc) hdiv]
      show List.foldl _ (some (v * 16 ^ w + n / 16)) (hexDigitChar (n % 16) :: acc) = _
      rw [List.foldl_cons]
      show List.foldl _ ((some (v * 16 ^ w + n / 16)).bind
        (fun u => (hexVal (hexDigitChar (n % 16))).map (fun d => u * 16 + d))) acc = _
      rw [Option.some_bind, hexVal_hexDigitChar (n % 16) (Nat.mod_lt _ (by omega))]
      show parseHexFrom ((v * 16 ^ w + n / 16) * 16 + n % 16) acc = _
      have harith : (v * 16 ^ w + n / 16) * 16 + n % 16 = v * 16 ^ (w + 1) + n := by
        rw [pow_succ, ← Nat.mul_assoc]
        generalize v * 16 ^ w = A
        omega
      rw [harith]

theorem parseH512_hex128 (i : Nat) (h : i < 16 ^ 128) :
    parseH512 (hex128 i) = some i := by
  unfold parseH512 hex128
  rw [if_pos (by rw [natToHexW_length]; rfl)]
  show parseHexFrom 0 (natToHexW 128 i []) = some i
  rw [parseHexFrom_natToHexW 128 i 0 [] h]
  show some (0 * 16 ^ 128 + i) = some i
  simp

/-! ### Byte slicing on ASCII strings -/

theorem charBytes_eq_one (c : Char) (h : c.toNat < 128) : charBytes c = 1 := by
  unfold charBytes
  rw [if_pos h]

theorem utf8Len_ascii (cs : List Char) (h : ∀ c ∈ cs, charBytes c = 1) :
    utf8Len cs = cs.length := by
  induction cs with
  | nil => rfl
  | cons c cs ih =>
      show charBytes c + utf8Len cs = cs.length + 1
      rw [h c (by simp), ih (fun d hd => h d (by simp [hd]))]
      omega

theorem dropBytes_ascii (cs : List Char) :
    ∀ n : Nat, (∀ c ∈ cs, charBytes c = 1) → n ≤ cs.length →
      dropBytes cs n = some (cs.drop n) := by
  induction cs with
  | nil =>
      intro n h hn
      have : n = 0 := by simpa using hn
      subst this
      rfl
  | cons c cs ih =>
      intro n h hn
      cases n with
      | zero => rfl
      | succ n =>
          show (if charBytes c ≤ n + 1 then dropBytes cs (n + 1 - charBytes c)
            else none) = some ((c :: cs).drop (n + 1))
          rw [h c (by simp)]
          rw [if_pos (by omega)]
          show dropBytes cs n = some (cs.drop n)
          exact ih n (fun d hd => h d (by simp [hd])) (by simpa using hn)

theorem takeBytes_ascii (cs : List Char) :
    ∀ n : Nat, (∀ c ∈ cs, charBytes c = 1) → n ≤ cs.length →
      takeBytes cs n = some (cs.take n) := by
  induction cs with
  | nil =>
      intro n h hn
      have : n = 0 := by simpa using hn
      subst this
      rfl
  | cons c cs ih =>
      intro n h hn
      cases n with
      | zero => rfl
      | succ n =>
          show (if charBytes c ≤ n + 1 then
            (takeBytes cs (n + 1 - charBytes c)).map (c :: ·)
            else none) = some ((c :: cs).take (n + 1))
          rw [h c (by simp)]
          rw [if_pos (by omega)]
          show (takeBytes cs n).map (c :: ·) = some (c :: cs.take n)
          rw [ih n (fun d hd => h d (by simp [hd])) (by simpa using hn)]
          rfl

theorem byteSlice_ascii (cs : List Char) (i j : Nat)
    (h : ∀ c ∈ cs, charBytes c = 1) (hij : i ≤ j) (hj : j ≤ cs.length) :
    byteSlice cs i j = some ((cs.drop i).take (j - i)) := by
  unfold byteSlice
  rw [if_pos hij, dropBytes_ascii cs i h (by omega), Option.some_bind]
  exact takeBytes_ascii (cs.drop i) (j - i)
    (fun d hd => h d (List.drop_subset i cs hd))
    (by rw [List.length_drop]; omega)

theorem charBytes_natToDec (n : Nat) : ∀ c ∈ natToDec n, charBytes c = 1 :=
  fun c hc => charBytes_eq_one c (by have := mem_natToDec n c hc; omega)

theorem charBytes_hex128 (i : Nat) : ∀ c ∈ hex128 i, charBytes c = 1 := by
  intro c hc
  rcases mem_natToHexW 128 i [] c hc with hc | ⟨m, -, rfl⟩
  · exact absurd hc (List.not_mem_nil c)
  · exact charBytes_eq_one _ (hexDigitChar_toNat_lt m)

theorem charBytes_enodeScheme : ∀ c ∈ enodeScheme, charBytes c = 1 := by decide

theorem charBytes_displayIpv4 (b0 b1 b2 b3 p : Nat) :
    ∀ c ∈ displayIpv4 b0 b1 b2 b3 p, charBytes c = 1 := by
  intro c hc
  simp only [displayIpv4, List.mem_append, List.mem_cons] at hc
  rcases hc with hc | hc | hc | hc | hc | hc | hc | hc | hc
  · exact charBytes_natToDec b0 c hc
  · subst hc; decide
  · exact charBytes_natToDec b1 c hc
  · subst hc; decide
  · exact charBytes_natToDec b2 c hc
  · subst hc; decide
  · exact charBytes_natToDec b3 c hc
  · subst hc; decide
  · exact charBytes_natToDec p c hc

theorem hex128_length (i : Nat) : (hex128 i).length = 128 := by
  unfold hex128
  rw [natToHexW_length]
  rfl

theorem displayIpv4_length_pos (b0 b1 b2 b3 p : Nat) :
    0 < (displayIpv4 b0 b1 b2 b3 p).length := by
  simp only [displayIpv4, List.length_append, List.length_cons]
  omega

/-- Formatting a node as its canonical `enode://` url and re-parsing the
url through `json::Node::into_node` reproduces the node, for an IPv4
endpoint whose UDP port equals its TCP port, an `Optional` peer type and a
512-bit id (the fields every record the table persists actually has). -/
theorem into_node_jsonOfNode (i att fl b0 b1 b2 b3 p : Nat)
    (hb0 : b0 ≤ 255) (hb1 : b1 ≤ 255) (hb2 : b2 ≤ 255) (hb3 : b3 ≤ 255)
    (hp : p ≤ 65535) (hid : i < 16 ^ 128) :
    JsonNode.into_node (jsonOfNode
      { id := i, endpoint := ⟨.v4 b0 b1 b2 b3 p, p⟩, peer_type := .Optional,
        attempts := att, failures := fl }) =
      some { id := i, endpoint := ⟨.v4 b0 b1 b2 b3 p, p⟩, peer_type := .Optional,
             attempts := att, failures := fl } := by
  have hdisp : Node.display
      { id := i, endpoint := ⟨.v4 b0 b1 b2 b3 p, p⟩, peer_type := .Optional,
        attempts := att, failures := fl } =
      some (enodeScheme ++ (hex128 i ++ ('@' :: displayIpv4 b0 b1 b2 b3 p))) := by
    unfold Node.display SocketAddr.display
    exact congrArg some (if_neg (fun hne => hne rfl))
  have hascii : ∀ c ∈ enodeScheme ++ (hex128 i ++ ('@' :: displayIpv4 b0 b1 b2 b3 p)),
      charBytes c = 1 := by
    intro c hc
    rcases List.mem_append.1 hc with hc | hc
    · exact charBytes_enodeScheme c hc
    rcases List.mem_append.1 hc with hc | hc
    · exact charBytes_hex128 i c hc
    rcases List.mem_cons.1 hc with rfl | hc
    · decide
    · exact charBytes_displayIpv4 b0 b1 b2 b3 p c hc
  have hUlen : (enodeScheme ++ (hex128 i ++ ('@' :: displayIpv4 b0 b1 b2 b3 p))).length =
      137 + (displayIpv4 b0 b1 b2 b3 p).length := by
    simp only [List.length_append, List.length_cons, hex128_length]
    have h8 : enodeScheme.length = 8 := rfl
    omega
  have hutf : utf8Len (enodeScheme ++ (hex128 i ++ ('@' :: displayIpv4 b0 b1 b2 b3 p))) =
      137 + (displayIpv4 b0 b1 b2 b3 p).length := by
    rw [utf8Len_ascii _ hascii, hUlen]
  have haddrpos := displayIpv4_length_pos b0 b1 b2 b3 p
  have hs08 : byteSlice (enodeScheme ++ (hex128 i ++ ('@' :: displayIpv4 b0 b1 b2 b3 p)))
      0 8 = some enodeScheme := by
    rw [byteSlice_ascii _ 0 8 hascii (by omega) (by rw [hUlen]; omega), List.drop_zero]
    show some (List.take 8 _) = _
    rw [show (8 : Nat) = enodeScheme.length from rfl, List.take_left]
  have hassoc : enodeScheme ++ (hex128 i ++ ('@' :: displayIpv4 b0 b1 b2 b3 p)) =
      ((enodeScheme ++ hex128 i) ++ ['@']) ++ displayIpv4 b0 b1 b2 b3 p := by
    simp
  have hlen137 : ((enodeScheme ++ hex128 i) ++ ['@']).length = 137 := by
    simp only [List.length_append, hex128_length]
    rfl
  have hlen136 : (enodeScheme ++ hex128 i).length = 136 := by
    simp only [List.length_append, hex128_length]
    rfl
  have hs136 : byteSlice (enodeScheme ++ (hex128 i ++ ('@' :: displayIpv4 b0 b1 b2 b3 p)))
      136 137 = some ['@'] := by
    rw [byteSlice_ascii _ 136 137 hascii (by omega) (by rw [hUlen]; omega)]
    rw [show (enodeScheme ++ (hex128 i ++ ('@' :: displayIpv4 b0 b1 b2 b3 p))) =
      (enodeScheme ++ hex128 i) ++ ('@' :: displayIpv4 b0 b1 b2 b3 p) by simp]
    rw [show (136 : Nat) = (enodeScheme ++ hex128 i).length from hlen136.symm,
      List.drop_left]
    rfl
  have hs8 : byteSlice (enodeScheme ++ (hex128 i ++ ('@' :: displayIpv4 b0 b1 b2 b3 p)))
      8 136 = some (hex128 i) := by
    rw [byteSlice_ascii _ 8 136 hascii (by omega) (by rw [hUlen]; omega)]
    rw [show (8 : Nat) = enodeScheme.length from rfl, List.drop_left]
    show some (List.take 128 _) = _
    rw [show (128 : Nat) = (hex128 i).length from (hex128_length i).symm]
    rw [show hex128 i ++ ('@' :: displayIpv4 b0 b1 b2 b3 p) =
      hex128 i ++ ('@' :: displayIpv4 b0 b1 b2 b3 p) from rfl, List.take_left]
  have hs137 : byteSlice (enodeScheme ++ (hex128 i ++ ('@' :: displayIpv4 b0 b1 b2 b3 p)))
      137 (utf8Len (enodeScheme ++ (hex128 i ++ ('@' :: displayIpv4 b0 b1 b2 b3 p)))) =
      some (displayIpv4 b0 b1 b2 b3 p) := by
    rw [byteSlice_ascii _ 137 _ hascii (by rw [hutf]; omega)
      (by rw [hutf, hUlen])]
    rw [hassoc, show (137 : Nat) = ((enodeScheme ++ hex128 i) ++ ['@']).length
      from hlen137.symm, List.drop_left]
    rw [← hassoc, hutf, hlen137]
    show some (List.take ((137 + (displayIpv4 b0 b1 b2 b3 p).length) - 137) _) = _
    rw [show (137 + (displayIpv4 b0 b1 b2 b3 p).length) - 137 =
      (displayIpv4 b0 b1 b2 b3 p).length by omega, List.take_length]
  have hfrom : Node.from_str parseIpv4SocketAddr
      (enodeScheme ++ (hex128 i ++ ('@' :: displayIpv4 b0 b1 b2 b3 p))) =
      some (.ok { id := i, endpoint := ⟨.v4 b0 b1 b2 b3 p, p⟩, peer_type := .Optional,
                  attempts := 0, failures := 0 }) := by
    unfold Node.from_str
    rw [if_pos (by rw [hutf]; omega)]
    rw [hs08]
    dsimp only
    rw [if_pos rfl, hs136]
    dsimp only
    rw [if_pos rfl, hs8, hs137]
    dsimp only
    rw [parseH512_hex128 i hid]
    dsimp only
    unfold NodeEndpoint.from_str
    rw [parseIpv4_display b0 b1 b2 b3 p hb0 hb1 hb2 hb3 hp]
    rfl
  unfold JsonNode.into_node jsonOfNode
  dsimp only
  rw [hdisp]
  dsimp only
  rw [hfrom]

/-- `nodes` under the default (allow-all) filter is just the id projection
of the ordered entries. -/
theorem rankedNodes_default (up upub : SocketAddr → Bool) (t : NodeTable) :
    t.rankedNodes up upub IpFilter.default =
      t.ordered_entries.map (fun n => n.id) := by
  unfold NodeTable.rankedNodes
  rw [List.filter_congr (l := t.ordered_entries)
    (fun x _ => is_allowed_default up upub x.endpoint)]
  rw [List.filter_true]

/-- Core of the save/load round-trip: for a two-record table whose records
survive the url round-trip and have distinct ids, reloading what `save`
wrote reproduces the ranked id order. -/
theorem save_load_core (N1 N2 : Node) (s : String) (path2 : Option String)
    (up upub : SocketAddr → Bool)
    (hround1 : JsonNode.into_node (jsonOfNode N1) = some N1)
    (hround2 : JsonNode.into_node (jsonOfNode N2) = some N2)
    (hbeq12 : (N1.id == N2.id) = false)
    (hbeq21 : (N2.id == N1.id) = false) :
    (NodeTable.new path2
        (NodeTable.save up upub ⟨[N1, N2], [], some s⟩)).rankedNodes
        up upub IpFilter.default =
      NodeTable.rankedNodes up upub ⟨[N1, N2], [], some s⟩ IpFilter.default := by
  have hlook1 : NodeTable.lookup ⟨[N1, N2], [], some s⟩ N1.id = some N1 := by
    unfold NodeTable.lookup
    rw [List.find?_cons_of_pos (p := fun n : Node => n.id == N1.id) _
      (beq_self_eq_true N1.id)]
  have hlook2 : NodeTable.lookup ⟨[N1, N2], [], some s⟩ N2.id = some N2 := by
    unfold NodeTable.lookup
    rw [List.find?_cons_of_neg (p := fun n : Node => n.id == N2.id) _
      (by simp [hbeq12]),
      List.find?_cons_of_pos (p := fun n : Node => n.id == N2.id) _
      (beq_self_eq_true N2.id)]
  have hins2 : mapInsert [N1] N2 = [N1, N2] := by
    unfold mapInsert
    rw [if_neg (by simp [hbeq12])]
    rfl
  have hins2' : mapInsert [N2] N1 = [N2, N1] := by
    unfold mapInsert
    rw [if_neg (by simp [hbeq21])]
    rfl
  by_cases hle : Node.rankLE N1 N2 = true
  · have hordP : ∀ pa : Option String,
        NodeTable.ordered_entries ⟨[N1, N2], [], pa⟩ = [N1, N2] := by
      intro pa
      simp [NodeTable.ordered_entries, sortRanked, insertRanked, hle]
    have hranked : NodeTable.rankedNodes up upub ⟨[N1, N2], [], some s⟩
        IpFilter.default = [N1.id, N2.id] := by
      rw [rankedNodes_default, hordP]
      rfl
    have hsave : NodeTable.save up upub ⟨[N1, N2], [], some s⟩ =
        some ⟨[jsonOfNode N1, jsonOfNode N2]⟩ := by
      unfold NodeTable.save
      rw [hranked]
      simp only [List.filterMap_cons, List.filterMap_nil, hlook1, hlook2]
      rw [List.take_of_length_le (by simp [MAX_NODES])]
      rfl
    have hnew : NodeTable.new path2 (NodeTable.save up upub ⟨[N1, N2], [], some s⟩) =
        ⟨[N1, N2], [], path2⟩ := by
      rw [hsave]
      unfold NodeTable.new loadNodes
      simp only [List.filterMap_cons, List.filterMap_nil, hround1, hround2]
      rw [List.foldl_cons, List.foldl_cons, List.foldl_nil]
      rw [show mapInsert [] N1 = [N1] from rfl, hins2]
    rw [hnew, rankedNodes_default, rankedNodes_default, hordP, hordP]
  · have hle2 : Node.rankLE N2 N1 = true :=
      rankLE_total N1 N2 (by rwa [Bool.not_eq_true] at hle)
    rw [Bool.not_eq_true] at hle
    have hordP : ∀ pa : Option String,
        NodeTable.ordered_entries ⟨[N1, N2], [], pa⟩ = [N2, N1] := by
      intro pa
      simp [NodeTable.ordered_entries, sortRanked, insertRanked, hle]
    have hordQ : ∀ pa : Option String,
        NodeTable.ordered_entries ⟨[N2, N1], [], pa⟩ = [N2, N1] := by
      intro pa
      simp [NodeTable.ordered_entries, sortRanked, insertRanked, hle2]
    have hranked : NodeTable.rankedNodes up upub ⟨[N1, N2], [], some s⟩
        IpFilter.default = [N2.id, N1.id] := by
      rw [rankedNodes_default, hordP]
      rfl
    have hsave : NodeTable.save up upub ⟨[N1, N2], [], some s⟩ =
        some ⟨[jsonOfNode N2, jsonOfNode N1]⟩ := by
      unfold NodeTable.save
      rw [hranked]
      simp only [List.filterMap_cons, List.filterMap_nil, hlook1, hlook2]
      rw [List.take_of_length_le (by simp [MAX_NODES])]
      rfl
    have hnew : NodeTable.new path2 (NodeTable.save up upub ⟨[N1, N2], [], some s⟩) =
        ⟨[N2, N1], [], path2⟩ := by
      rw [hsave]
      unfold NodeTable.new loadNodes
      simp only [List.filterMap_cons, List.filterMap_nil, hround1, hround2]
      rw [List.foldl_cons, List.foldl_cons, List.foldl_nil]
      rw [show mapInsert [] N2 = [N2] from rfl, hins2']
    rw [hnew, rankedNodes_default, rankedNodes_default, hordQ, hordP]

/-- C9.  A table with a configured storage path holding two peers with
counters set, saved and reloaded into a fresh table, yields the same
ranked id order under the default allow-all filter.  The hypotheses pin
the shape every persisted record actually has (IPv4 endpoint rendered by
the canonical url form, UDP port equal to the TCP port, `Optional`
peer type, 512-bit ids) and distinct ranking keys — for records tied on
all three ranking keys the on-disk map order is arbitrary in the real
`HashMap`, so only order up to key-equivalence is guaranteed there. -/
theorem save_load_preserves_ranked_order
    (n1 n2 : Node) (s : String) (path2 : Option String)
    (up upub : SocketAddr → Bool)
    (b0 b1 b2 b3 p c0 c1 c2 c3 q : Nat)
    (h1a : n1.endpoint.address = .v4 b0 b1 b2 b3 p)
    (h1u : n1.endpoint.udp_port = p)
    (h1t : n1.peer_type = .Optional)
    (h1b : b0 ≤ 255 ∧ b1 ≤ 255 ∧ b2 ≤ 255 ∧ b3 ≤ 255 ∧ p ≤ 65535)
    (h2a : n2.endpoint.address = .v4 c0 c1 c2 c3 q)
    (h2u : n2.endpoint.udp_port = q)
    (h2t : n2.peer_type = .Optional)
    (h2b : c0 ≤ 255 ∧ c1 ≤ 255 ∧ c2 ≤ 255 ∧ c3 ≤ 255 ∧ q ≤ 65535)
    (h1i : n1.id < 16 ^ 128) (h2i : n2.id < 16 ^ 128)
    (hne : n1.id ≠ n2.id)
    (hkeys : Node.rankCompare n1 n2 ≠ .eq) :
    (NodeTable.new path2
        (NodeTable.save up upub ⟨[n1, n2], [], some s⟩)).rankedNodes
        up upub IpFilter.default =
      NodeTable.rankedNodes up upub ⟨[n1, n2], [], some s⟩ IpFilter.default := by
  obtain ⟨i1, ⟨a1, u1⟩, pt1, at1, f1⟩ := n1
  obtain ⟨i2, ⟨a2, u2⟩, pt2, at2, f2⟩ := n2
  obtain rfl : a1 = SocketAddr.v4 b0 b1 b2 b3 p := h1a
  obtain rfl : u1 = p := h1u
  obtain rfl : pt1 = PeerType.Optional := h1t
  obtain rfl : a2 = SocketAddr.v4 c0 c1 c2 c3 q := h2a
  obtain rfl : u2 = q := h2u
  obtain rfl : pt2 = PeerType.Optional := h2t
  obtain ⟨hb0, hb1, hb2, hb3, hp⟩ := h1b
  obtain ⟨hc0, hc1, hc2, hc3, hq⟩ := h2b
  refine save_load_core _ _ s path2 up upub ?_ ?_ ?_ ?_
  · exact into_node_jsonOfNode i1 at1 f1 b0 b1 b2 b3 u1 hb0 hb1 hb2 hb3 hp h1i
  · exact into_node_jsonOfNode i2 at2 f2 c0 c1 c2 c3 u2 hc0 hc1 hc2 hc3 hq h2i
  · exact beq_eq_false_iff_ne.2 hne
  · exact beq_eq_false_iff_ne.2 (Ne.symm hne)

/-- C9 witness: two concrete peers with counters 1/0 and 1/1 on IPv4
endpoints, saved and reloaded. -/
theorem save_load_preserves_ranked_order_witness :
    (Node.mk 1 ⟨.v4 22 99 55 44 7770, 7770⟩ .Optional 1 0).id ≠
      (Node.mk 2 ⟨.v4 22 99 55 44 7770, 7770⟩ .Optional 1 1).id ∧
    Node.rankCompare (Node.mk 1 ⟨.v4 22 99 55 44 7770, 7770⟩ .Optional 1 0)
      (Node.mk 2 ⟨.v4 22 99 55 44 7770, 7770⟩ .Optional 1 1) ≠ .eq ∧
    (NodeTable.new none
        (NodeTable.save (fun _ => false) (fun _ => false)
          ⟨[Node.mk 1 ⟨.v4 22 99 55 44 7770, 7770⟩ .Optional 1 0,
            Node.mk 2 ⟨.v4 22 99 55 44 7770, 7770⟩ .Optional 1 1], [],
            some "nodes"⟩)).rankedNodes
        (fun _ => false) (fun _ => false) IpFilter.default =
      NodeTable.rankedNodes (fun _ => false) (fun _ => false)
        ⟨[Node.mk 1 ⟨.v4 22 99 55 44 7770, 7770⟩ .Optional 1 0,
          Node.mk 2 ⟨.v4 22 99 55 44 7770, 7770⟩ .Optional 1 1], [],
          some "nodes"⟩ IpFilter.default :=
  ⟨by decide, by decide,
   save_load_preserves_ranked_order
     (Node.mk 1 ⟨.v4 22 99 55 44 7770, 7770⟩ .Optional 1 0)
     (Node.mk 2 ⟨.v4 22 99 55 44 7770, 7770⟩ .Optional 1 1)
     "nodes" none (fun _ => false) (fun _ => false)
     22 99 55 44 7770 22 99 55 44 7770
     rfl rfl rfl (by decide) rfl rfl rfl (by decide)
     (by decide) (by decide) (by decide) (by decide)⟩

end Parity
